import Mathlib

set_option maxHeartbeats 1000000

/-
Verification development for the conversation-reconstruction pipeline of the
AI-Agent-Host repository (timestamp_utils.py and conversation_parser_clean.py).

The embedding is shallow: Python strings become List Char, datetimes become
rational seconds since the Unix epoch, floating-point delays become rationals
(the claims under test are about exact accumulation and clamping, not about
binary rounding), and file input becomes an explicit list of lines.
-/

/-- Whitespace characters stripped by the Python str.strip and str.split
methods (space, tab, newline, carriage return, vertical tab, form feed). -/
def pyIsSpace (c : Char) : Bool :=
  c == ' ' || c == '\t' || c == '\n' || c == '\r' || c == '\x0b' || c == '\x0c'

/-- Python str.strip: remove leading and trailing whitespace. -/
def strip (s : List Char) : List Char :=
  ((s.dropWhile pyIsSpace).reverse.dropWhile pyIsSpace).reverse

/-- Helper for splitWs: accumulates the current token (reversed). -/
def splitWsAux : List Char → List Char → List (List Char)
  | cur, [] => if cur.isEmpty then [] else [cur.reverse]
  | cur, c :: rest =>
    if pyIsSpace c then
      if cur.isEmpty then splitWsAux [] rest
      else cur.reverse :: splitWsAux [] rest
    else splitWsAux (c :: cur) rest

/-- Python str.split with no argument: split on runs of whitespace,
discarding empty tokens. -/
def splitWs (s : List Char) : List (List Char) := splitWsAux [] s

/-- Python s.split(chr(10)): split on each newline, keeping empty pieces. -/
def splitNl : List Char → List (List Char)
  | [] => [[]]
  | c :: rest =>
    if c = '\n' then [] :: splitNl rest
    else match splitNl rest with
      | [] => [[c]]
      | l :: ls => (c :: l) :: ls

/-- Boolean list-starts-with test. -/
def isPrefixB : List Char → List Char → Bool
  | [], _ => true
  | _ :: _, [] => false
  | a :: as, b :: bs => (a == b) && isPrefixB as bs

/-- Boolean substring test: models re.search for a pattern with no
metacharacters (every literal pattern in the source). -/
def containsSub (needle : List Char) : List Char → Bool
  | [] => isPrefixB needle []
  | c :: rest => isPrefixB needle (c :: rest) || containsSub needle rest

/-- ASCII decimal digit test. -/
def isDigitCh (c : Char) : Bool := decide ('0' ≤ c) && decide (c ≤ '9')

/-- Value of a list of decimal digits. -/
def digitsVal (ds : List Char) : Nat :=
  ds.foldl (fun acc c => acc * 10 + (c.toNat - '0'.toNat)) 0

/-- Python int() applied to one whitespace-free token: an optional sign
followed by at least one decimal digit.  (The model leaves out the rarely
used underscore digit separators; no claim depends on them.) -/
def parsePyInt (s : List Char) : Option Int :=
  let p := match s with
    | '+' :: r => ((1 : Int), r)
    | '-' :: r => ((-1 : Int), r)
    | r => ((1 : Int), r)
  if !p.2.isEmpty && p.2.all isDigitCh then some (p.1 * (digitsVal p.2 : Int))
  else none

/-- Python float() applied to one whitespace-free token: optional sign,
decimal mantissa with optional fractional part, optional exponent.  (The
model leaves out inf, nan and underscore separators; no claim depends on
them.)  The value is exact, as a rational. -/
def parsePyFloat (s : List Char) : Option ℚ :=
  let p := match s with
    | '+' :: r => ((1 : ℚ), r)
    | '-' :: r => ((-1 : ℚ), r)
    | r => ((1 : ℚ), r)
  let ip := p.2.takeWhile isDigitCh
  let rest2 := p.2.dropWhile isDigitCh
  let q := match rest2 with
    | '.' :: r => (r.takeWhile isDigitCh, r.dropWhile isDigitCh)
    | r => (([] : List Char), r)
  if ip.isEmpty && q.1.isEmpty then none
  else
    let mant : ℚ := (digitsVal ip : ℚ) + (digitsVal q.1 : ℚ) / ((10 : ℚ) ^ q.1.length)
    match q.2 with
    | [] => some (p.1 * mant)
    | 'e' :: r => (parsePyInt r).map (fun e => p.1 * mant * (10 : ℚ) ^ e)
    | 'E' :: r => (parsePyInt r).map (fun e => p.1 * mant * (10 : ℚ) ^ e)
    | _ => none

/-- TimingEvent dataclass of timestamp_utils.py.  Timestamps are rational
seconds since the Unix epoch (session_start_time + timedelta(seconds=t)). -/
structure TimingEvent where
  delay : ℚ
  content : List Char
  cumulativeTime : ℚ
  timestamp : ℚ
deriving DecidableEq

/-- Default TimingEvent used with List.getD. -/
def defTE : TimingEvent := ⟨0, [], 0, 0⟩

/-- Outcome of processing one line of the timing file: an accepted
(delay, byte count) pair, a warned-about malformed line (the except branch
that prints to stderr), or a silently skipped line (blank lines and lines
with fewer than two fields, which never enter the try body far enough to
raise). -/
inductive LineParse where
  | ok (delay : ℚ) (count : Int)
  | warn
  | skip
deriving DecidableEq

/-- True on the ok outcome. -/
def LineParse.isOk : LineParse → Bool
  | .ok _ _ => true
  | _ => false

/-- True on the warn outcome. -/
def LineParse.isWarn : LineParse → Bool
  | .warn => true
  | _ => false

/-- Delay of an accepted line, 0 otherwise. -/
def okDelay : LineParse → ℚ
  | .ok d _ => d
  | _ => 0

/-- One loop iteration of TimestampExtractor.parse_script_timing_file:
strip the line, skip it when blank, split into fields, parse the first two
as float and int when there are at least two (a failed numeric parse is the
ValueError branch, which warns), and silently skip otherwise. -/
def parseLine (l : List Char) : LineParse :=
  let stripped := strip l
  if stripped.isEmpty then .skip
  else
    let parts := splitWs stripped
    if 2 ≤ parts.length then
      match parsePyFloat (parts.getD 0 []), parsePyInt (parts.getD 1 []) with
      | some d, some c => .ok d c
      | _, _ => .warn
    else .skip

/-- Loop of parse_script_timing_file threading the cumulative time, and
counting the warned-about malformed lines.  Content is left empty, exactly
as in the source ("Content filled later by correlating with session log"). -/
def parseTimingAux (start : ℚ) : List (List Char) → ℚ → List TimingEvent × Nat
  | [], _ => ([], 0)
  | l :: ls, cum =>
    match parseLine l with
    | .ok d _ =>
      let r := parseTimingAux start ls (cum + d)
      (⟨d, [], cum + d, start + (cum + d)⟩ :: r.1, r.2)
    | .warn =>
      let r := parseTimingAux start ls cum
      (r.1, r.2 + 1)
    | .skip => parseTimingAux start ls cum

/-- TimestampExtractor.parse_script_timing_file over the list of lines of
the timing file, starting from cumulative time 0.  Returns the events and
the number of warnings printed.  The function is total: no line makes it
raise (the model of the documented never-throw behaviour). -/
def parseScriptTimingFile (start : ℚ) (lines : List (List Char)) :
    List TimingEvent × Nat :=
  parseTimingAux start lines 0

/-- Slice loop of TimestampExtractor.correlate_with_session_log: every
event but the last takes cs characters from the current position, the last
takes everything that remains. -/
def sliceLoop (s : List Char) (cs : Nat) : Nat → Nat → List (List Char)
  | _, 0 => []
  | pos, k + 1 =>
    if k = 0 then [s.drop pos]
    else ((s.drop pos).take cs) :: sliceLoop s cs (pos + cs) k

/-- Content slices produced by correlate_with_session_log for n events over
transcript s; the chunk size is max(1, len(content) // len(timing_events))
exactly as in the source. -/
def correlateSlices (s : List Char) (n : Nat) : List (List Char) :=
  sliceLoop s (max 1 (s.length / n)) 0 n

/-- TimestampExtractor.correlate_with_session_log: fill the content field
of each timing event with its slice of the decoded transcript. -/
def correlate (events : List TimingEvent) (s : List Char) : List TimingEvent :=
  List.zipWith (fun e c => { e with content := c }) events
    (correlateSlices s events.length)

/-- Apostrophe character. -/
def apos : Char := Char.ofNat 39

/-- User prompt patterns of ConversationTimestampProcessor (all literal:
angle prompt, shell dollar prompt, two fancy shell prompts). -/
def userPromptPatterns : List (List Char) :=
  ["> ".toList, "$ ".toList, "❯ ".toList, "➜ ".toList]

/-- Assistant response patterns of ConversationTimestampProcessor (all
literal: bullet glyph, the two phrase openers, check mark, cross mark). -/
def claudeResponsePatterns : List (List Char) :=
  [['●'], ['I', apos, 'l', 'l', ' '], "Let me ".toList, ['✅'], ['❌']]

/-- ConversationTimestampProcessor.is_claude_response. -/
def isClaudeResponse (content : List Char) : Bool :=
  claudeResponsePatterns.any (fun p => containsSub p content)

/-- ConversationTimestampProcessor.is_user_input: a prompt marker anywhere,
or else the fallback heuristic (at most 3 newline-split pieces, at least
one piece with non-blank content, and no assistant-response marker). -/
def isUserInput (content : List Char) : Bool :=
  userPromptPatterns.any (fun p => containsSub p content) ||
  (decide ((splitNl content).length ≤ 3) &&
   (splitNl content).any (fun l => !(strip l).isEmpty) &&
   !(isClaudeResponse content))

/-- Word character of the regex word class, ASCII part (letters, digits,
underscore; the Python re module would also accept non-ASCII word
characters, which no claim exercises). -/
def isWordChar (c : Char) : Bool := c.isAlphanum || c == '_'

/-- Match of the tool-invocation regex (bullet, space, word run, opening
parenthesis) anchored at the start of s. -/
def toolPatAt (s : List Char) : Bool :=
  match s with
  | c1 :: c2 :: rest =>
    (c1 == '●') && (c2 == ' ') &&
    !(rest.takeWhile isWordChar).isEmpty &&
    (match rest.dropWhile isWordChar with
     | '(' :: _ => true
     | _ => false)
  | _ => false

/-- re.search of the tool-invocation regex: first position where it
matches. -/
def toolPatSearch : List Char → Bool
  | [] => false
  | c :: rest => toolPatAt (c :: rest) || toolPatSearch rest

/-- ConversationTimestampProcessor.is_tool_usage: the tool-invocation
regex, the tool-result glyph, or the command-execution marker. -/
def isToolUsage (content : List Char) : Bool :=
  toolPatSearch content || containsSub ['⎿'] content ||
  containsSub ("Running: ".toList) content

/-- Match of the full tool-extraction regex (bullet, space, word run (the
name), parenthesized lazy argument capture) anchored at the start of s.
The lazy dot cannot cross a newline, so the argument capture stops at the
first closing parenthesis and fails when a newline or the end of the slice
arrives first. -/
def toolMatchAt (s : List Char) : Option (List Char × List Char) :=
  match s with
  | c1 :: c2 :: rest =>
    if (c1 == '●') && (c2 == ' ') then
      let w := rest.takeWhile isWordChar
      if w.isEmpty then none
      else
        match rest.dropWhile isWordChar with
        | '(' :: after =>
          (match after.dropWhile (fun c => !(c == ')' || c == '\n')) with
           | ')' :: _ => some (w, after.takeWhile (fun c => !(c == ')' || c == '\n')))
           | _ => none)
        | _ => none
    else none
  | _ => none

/-- re.search of the full tool-extraction regex used by
extract_tool_info: first position with a complete match; returns the tool
name and the raw argument text. -/
def toolFullSearch : List Char → Option (List Char × List Char)
  | [] => none
  | c :: rest => (toolMatchAt (c :: rest)).orElse (fun _ => toolFullSearch rest)

/-- Tail of a CSI escape sequence: parameter bytes, intermediate bytes and
one final byte, as in the ANSI-stripping regex of clean_content. -/
def csiTail (s : List Char) : Option (List Char) :=
  let s1 := s.dropWhile (fun c => decide ('0' ≤ c) && decide (c ≤ '?'))
  let s2 := s1.dropWhile (fun c => decide (' ' ≤ c) && decide (c ≤ '/'))
  match s2 with
  | c :: rest => if decide ('@' ≤ c) && decide (c ≤ '~') then some rest else none
  | [] => none

/-- ANSI escape removal of clean_content (fuel-driven so that the kernel
can evaluate it; the fuel equals the length of the input, which one step
never fails to consume). -/
def ansiStripAux : Nat → List Char → List Char
  | 0, s => s
  | _ + 1, [] => []
  | fuel + 1, c :: rest =>
    if c = '\x1b' then
      match rest with
      | d :: rest2 =>
        if (decide ('@' ≤ d) && decide (d ≤ 'Z')) ||
           (decide ('\\' ≤ d) && decide (d ≤ '_')) then ansiStripAux fuel rest2
        else if d = '[' then
          match csiTail rest2 with
          | some r => ansiStripAux fuel r
          | none => c :: ansiStripAux fuel rest
        else c :: ansiStripAux fuel rest
      | [] => [c]
    else c :: ansiStripAux fuel rest

/-- ANSI escape removal of clean_content. -/
def ansiStrip (s : List Char) : List Char := ansiStripAux s.length s

/-- Whitespace-run collapse of clean_content: every maximal whitespace run
becomes one space (the Boolean records whether the previous character was
part of a run). -/
def collapseAux : Bool → List Char → List Char
  | _, [] => []
  | prev, c :: rest =>
    if pyIsSpace c then
      if prev then collapseAux true rest else ' ' :: collapseAux true rest
    else c :: collapseAux false rest

/-- ConversationTimestampProcessor.clean_content: strip ANSI escapes,
collapse whitespace runs to single spaces, strip the ends. -/
def cleanContent (s : List Char) : List Char :=
  strip (collapseAux false (ansiStrip s))

/-- Kind of a detected conversation event. -/
inductive EventType where
  | userInput
  | claudeResponse
  | toolUsage
deriving DecidableEq

/-- Event dictionary built by detect_conversation_events.  The tool fields
are present (some) exactly on tool_usage events, as in the source, where
only that branch adds the tool_name and tool_args keys. -/
structure ConversationEvent where
  timestamp : ℚ
  etype : EventType
  content : List Char
  rawContent : List Char
  toolName : Option (List Char)
  toolArgs : Option (List Char)
  cumulativeTime : ℚ
deriving DecidableEq

/-- Loop body of detect_conversation_events for one timing event: strip
the content, drop it when blank, then test user input, assistant response
and tool usage in that order; the tool branch extracts the lowercased tool
name and the raw arguments, defaulting to unknown and the empty string. -/
def detectEvent (e : TimingEvent) : Option ConversationEvent :=
  let content := strip e.content
  if content.isEmpty then none
  else if isUserInput content then
    some ⟨e.timestamp, EventType.userInput, cleanContent content, content,
          none, none, e.cumulativeTime⟩
  else if isClaudeResponse content then
    some ⟨e.timestamp, EventType.claudeResponse, cleanContent content, content,
          none, none, e.cumulativeTime⟩
  else if isToolUsage content then
    some ⟨e.timestamp, EventType.toolUsage, cleanContent content, content,
          some (((toolFullSearch content).map
                  (fun pr => pr.1.map Char.toLower)).getD ("unknown".toList)),
          some (((toolFullSearch content).map (fun pr => pr.2)).getD []),
          e.cumulativeTime⟩
  else none

/-- ConversationTimestampProcessor.detect_conversation_events. -/
def detectConversationEvents (events : List TimingEvent) :
    List ConversationEvent :=
  events.filterMap detectEvent

/-- Token of the small regex fragment used by the project-tag patterns of
conversation_parser_clean.py: a literal character, an optional
any-character (dot question mark), or a greedy any-run (dot star).  The
dot never matches a newline. -/
inductive PTok where
  | lit (c : Char)
  | anyOpt
  | anyStar
deriving DecidableEq

/-- Backtracking matcher for a PTok pattern anchored at the start of s,
returning the number of characters consumed by the leftmost-preferred
match (greedy for both optional and star, as in the re module).  Fuel
bounds the backtracking depth; every call shrinks pattern plus input, so
fuel equal to their combined length never runs out. -/
def matchPTok : Nat → List PTok → List Char → Option Nat
  | 0, _, _ => none
  | _ + 1, [], _ => some 0
  | fuel + 1, PTok.lit c :: pat, s =>
    match s with
    | x :: xs => if x == c then (matchPTok fuel pat xs).map (· + 1) else none
    | [] => none
  | fuel + 1, PTok.anyOpt :: pat, s =>
    (match s with
     | x :: xs =>
       if x == '\n' then none else (matchPTok fuel pat xs).map (· + 1)
     | [] => none).orElse (fun _ => matchPTok fuel pat s)
  | fuel + 1, PTok.anyStar :: pat, s =>
    match s with
    | x :: xs =>
      if x == '\n' then matchPTok fuel pat (x :: xs)
      else
        match matchPTok fuel (PTok.anyStar :: pat) xs with
        | some n => some (n + 1)
        | none => matchPTok fuel pat (x :: xs)
    | [] => matchPTok fuel pat []

/-- Number of re.findall matches of a PTok pattern: scan left to right,
counting non-overlapping matches and resuming after each one. -/
def findallCountAux (pat : List PTok) : Nat → List Char → Nat
  | 0, _ => 0
  | _ + 1, [] => 0
  | fuel + 1, c :: rest =>
    match matchPTok (pat.length + (c :: rest).length + 1) pat (c :: rest) with
    | some n => 1 + findallCountAux pat fuel ((c :: rest).drop (max n 1))
    | none => findallCountAux pat fuel rest

/-- Number of re.findall matches of a PTok pattern in s. -/
def findallCount (pat : List PTok) (s : List Char) : Nat :=
  findallCountAux pat s.length s

/-- Literal PTok pattern from a string. -/
def litP (s : String) : List PTok := s.toList.map PTok.lit

/-- ConversationParser._build_project_patterns, compiled to PTok patterns.
Patterns are matched against lowercased content, and every pattern here is
already lowercase. -/
def projectTagTable : List (List Char × List (List PTok)) :=
  [("ai-agent-host".toList,
    [litP ("ai") ++ [PTok.anyOpt] ++ litP ("agent") ++ [PTok.anyOpt] ++ litP ("host"),
     litP ("claude") ++ [PTok.anyOpt] ++ litP ("code"),
     litP ("questdb"), litP ("grafana"),
     litP ("docker") ++ [PTok.anyStar] ++ litP ("stack"),
     litP ("agentic") ++ [PTok.anyStar] ++ litP ("environment")]),
   ("python".toList,
    [litP ("python"), litP (".py"), litP ("pip"), litP ("conda"), litP ("jupyter"),
     litP ("pandas"), litP ("numpy"), litP ("matplotlib")]),
   ("docker".toList,
    [litP ("docker"), litP ("container"), litP ("compose"), litP ("dockerfile"),
     litP ("image") ++ [PTok.anyStar] ++ litP ("build"),
     litP ("docker") ++ [PTok.anyStar] ++ litP ("run")]),
   ("database".toList,
    [litP ("questdb"), litP ("sql"), litP ("schema"), litP ("table"), litP ("query"),
     litP ("database"), litP ("time") ++ [PTok.anyOpt] ++ litP ("series")])]

/-- ConversationParser.detect_project_tag: per-project total match count
over the lowercased content; keep the strictly positive scores; return the
first project reaching the maximum (the Python max over dict insertion
order). -/
def detectProjectTag (content : List Char) : Option (List Char) :=
  let lc := content.map Char.toLower
  let scores := projectTagTable.filterMap (fun pr =>
    let sc := (pr.2.map (fun pat => findallCount pat lc)).sum
    if 0 < sc then some (pr.1, sc) else none)
  match scores with
  | [] => none
  | x :: xs =>
    some ((xs.foldl (fun best y => if best.2 < y.2 then y else best) x).1)

/-- Case-insensitive list-starts-with test (re.IGNORECASE on a literal). -/
def startsWithCI : List Char → List Char → Bool
  | [], _ => true
  | _ :: _, [] => false
  | a :: as, b :: bs => (Char.toLower a == Char.toLower b) && startsWithCI as bs

/-- Lazy parenthesized capture after a matched literal: the argument text
up to the first closing parenthesis, failing on a newline or the end. -/
def lazyParenCapture (afterLit : List Char) : Option (List Char) :=
  match afterLit.dropWhile (fun c => !(c == ')' || c == '\n')) with
  | ')' :: _ => some (afterLit.takeWhile (fun c => !(c == ')' || c == '\n')))
  | _ => none

/-- re.search (IGNORECASE) for one of the literal-plus-capture file
patterns (the Read, Write and Edit rows of _build_file_patterns): find the
first occurrence of the literal that is followed by a completed capture;
an occurrence whose capture fails is skipped and the scan resumes one
character later, as the regex engine does. -/
def searchLitParen (lit : List Char) : List Char → Option (List Char)
  | [] => none
  | c :: rest =>
    if startsWithCI lit (c :: rest) then
      match lazyParenCapture ((c :: rest).drop lit.length) with
      | some a => some a
      | none => searchLitParen lit rest
    else searchLitParen lit rest

/-- Character class of the file-path captures: word characters, dash,
slash, dot. -/
def pathChar (c : Char) : Bool := isWordChar c || c == '-' || c == '/' || c == '.'

/-- Lazy gap then a greedy path-character run, for the Bash row of
_build_file_patterns: the first path character reachable without crossing
a newline starts the capture. -/
def lazyPathAfter : List Char → Option (List Char)
  | [] => none
  | c :: rest =>
    if pathChar c then some ((c :: rest).takeWhile pathChar)
    else if c == '\n' then none
    else lazyPathAfter rest

/-- re.search (IGNORECASE) of the Bash file pattern. -/
def searchBashPath : List Char → Option (List Char)
  | [] => none
  | c :: rest =>
    if startsWithCI ("● Bash".toList) (c :: rest) then
      match lazyPathAfter ((c :: rest).drop ("● Bash".toList).length) with
      | some p => some p
      | none => searchBashPath rest
    else searchBashPath rest

/-- Lazy gap then a slash-anchored greedy path run, for the created row of
_build_file_patterns: the first slash followed by at least one path
character, reachable without crossing a newline. -/
def lazySlashPathAfter : List Char → Option (List Char)
  | [] => none
  | c :: rest =>
    if c == '/' then
      match rest.takeWhile pathChar with
      | [] => lazySlashPathAfter rest
      | run => some ('/' :: run)
    else if c == '\n' then none
    else lazySlashPathAfter rest

/-- re.search (IGNORECASE) of the created file pattern. -/
def searchCreatedPath : List Char → Option (List Char)
  | [] => none
  | c :: rest =>
    if startsWithCI ("created".toList) (c :: rest) then
      match lazySlashPathAfter ((c :: rest).drop ("created".toList).length) with
      | some p => some p
      | none => searchCreatedPath rest
    else searchCreatedPath rest

/-- ConversationParser.extract_file_info: the ordered file-pattern table,
first match wins; returns the captured path and the operation tag. -/
def extractFileInfo (content : List Char) :
    Option (List Char) × Option (List Char) :=
  match searchLitParen ("● Read(".toList) content with
  | some p => (some p, some ("read".toList))
  | none =>
    match searchLitParen ("● Write(".toList) content with
    | some p => (some p, some ("write".toList))
    | none =>
      match searchLitParen ("● Edit(".toList) content with
      | some p => (some p, some ("edit".toList))
      | none =>
        match searchBashPath content with
        | some p => (some p, some ("execute".toList))
        | none =>
          match searchCreatedPath content with
          | some p => (some p, some ("create".toList))
          | none => (none, none)

/-- ConversationParser.estimate_context_tokens. -/
def estimateContextTokens (content : List Char) : Nat :=
  max 1 (content.length / 4)

/-- Counter of non-overlapping literal occurrences (re.findall on a
literal pattern), scanning left to right and resuming right after each
match. -/
def countOccurAux (pat : List Char) : Nat → List Char → Nat
  | 0, _ => 0
  | _ + 1, [] => 0
  | fuel + 1, c :: rest =>
    if isPrefixB pat (c :: rest) then
      1 + countOccurAux pat fuel ((c :: rest).drop pat.length)
    else countOccurAux pat fuel rest

/-- Number of non-overlapping occurrences of pat in s. -/
def countOccur (pat : List Char) (s : List Char) : Nat :=
  countOccurAux pat s.length s

/-- ConversationParser._build_quality_patterns: the signed-weight quality
indicator table, in source order (check mark, successfully, completed,
cross mark, error, failed).  Weights are exact rationals. -/
def qualityIndicators : List (List Char × ℚ) :=
  [("✅".toList, 1/10), ("successfully".toList, 1/20),
   ("completed".toList, 1/20), ("❌".toList, -(1/5)),
   ("error".toList, -(1/10)), ("failed".toList, -(1/10))]

/-- ConversationParser.assess_response_quality: None unless the message is
an assistant response; otherwise start from 0.75, add matches times weight
for every indicator (matching is case-insensitive, modelled by counting
the lowercase pattern inside the lowercased content), and clamp the result
into the interval from 0.1 to 1.0. -/
def assessResponseQuality (content : List Char) (t : EventType) : Option ℚ :=
  if t = EventType.claudeResponse then
    some (max (1/10) (min 1 (qualityIndicators.foldl
      (fun acc pr =>
        acc + (countOccur pr.1 (content.map Char.toLower) : ℚ) * pr.2)
      (3/4))))
  else none

/-- ConversationMessage dataclass of conversation_parser_clean.py. -/
structure ConversationMessage where
  timestamp : ℚ
  sessionId : List Char
  messageType : EventType
  content : List Char
  projectTag : Option (List Char)
  toolUsed : Option (List Char)
  fileModified : Option (List Char)
  contextTokens : Nat
  responseQuality : Option ℚ
  rawContent : List Char
deriving DecidableEq

/-- Loop body of ConversationParser.parse_session_to_messages for one
detected event: extract file info only for assistant responses and tool
usages, record the tool name only for tool usages (defaulting to unknown),
and attach project tag, token estimate and quality score. -/
def assembleMessage (sessionId : List Char) (ev : ConversationEvent) :
    ConversationMessage :=
  let fo := if ev.etype = EventType.claudeResponse ∨ ev.etype = EventType.toolUsage
            then extractFileInfo ev.content else (none, none)
  { timestamp := ev.timestamp
    sessionId := sessionId
    messageType := ev.etype
    content := ev.content
    projectTag := detectProjectTag ev.content
    toolUsed := if ev.etype = EventType.toolUsage
                then some (ev.toolName.getD ("unknown".toList)) else none
    fileModified := fo.1
    contextTokens := estimateContextTokens ev.content
    responseQuality := assessResponseQuality ev.content ev.etype
    rawContent := ev.rawContent }

/-- ConversationParser.parse_session_to_messages over already detected
events. -/
def parseSessionToMessages (sessionId : List Char)
    (events : List ConversationEvent) : List ConversationMessage :=
  events.map (assembleMessage sessionId)

theorem sliceLoop_length (s : List Char) (cs : Nat) :
    ∀ (k pos : Nat), (sliceLoop s cs pos k).length = k := by
  intro k
  induction k with
  | zero => intro pos; simp [sliceLoop]
  | succ n ih =>
    intro pos
    by_cases h : n = 0 <;> simp [sliceLoop, h, ih]

theorem sliceLoop_join (s : List Char) (cs : Nat) :
    ∀ (k pos : Nat), 0 < k → (sliceLoop s cs pos k).flatten = s.drop pos := by
  intro k
  induction k with
  | zero => intro pos h; omega
  | succ n ih =>
    intro pos _
    by_cases h : n = 0
    · subst h; simp [sliceLoop]
    · simp only [sliceLoop, if_neg h, List.flatten_cons]
      rw [ih (pos + cs) (Nat.pos_of_ne_zero h)]
      exact List.drop_take_append_drop s pos cs

theorem sliceLoop_getD (s : List Char) (cs : Nat) :
    ∀ (k pos i : Nat), i < k →
      (sliceLoop s cs pos k).getD i [] =
        if i = k - 1 then s.drop (pos + i * cs)
        else (s.drop (pos + i * cs)).take cs := by
  intro k
  induction k with
  | zero => intro pos i h; omega
  | succ n ih =>
    intro pos i hi
    by_cases hn : n = 0
    · subst hn
      have hi0 : i = 0 := by omega
      subst hi0
      simp [sliceLoop]
    · cases i with
      | zero =>
        simp only [sliceLoop, if_neg hn, List.getD_cons_zero]
        rw [if_neg (by omega)]
        simp
      | succ j =>
        simp only [sliceLoop, if_neg hn, List.getD_cons_succ]
        rw [ih (pos + cs) j (by omega)]
        have harith : pos + cs + j * cs = pos + (j + 1) * cs := by ring
        by_cases hj : j = n - 1
        · rw [if_pos hj, if_pos (by omega), harith]
        · rw [if_neg hj, if_neg (by omega), harith]

theorem map_content_zipWith :
    ∀ (evs : List TimingEvent) (sls : List (List Char)),
      evs.length = sls.length →
      (List.zipWith (fun e c => { e with content := c }) evs sls).map
          TimingEvent.content = sls := by
  intro evs
  induction evs with
  | nil =>
    intro sls h
    cases sls with
    | nil => simp
    | cons c cs => simp at h
  | cons e es ih =>
    intro sls h
    cases sls with
    | nil => simp at h
    | cons c cs =>
      simp only [List.zipWith_cons_cons, List.map_cons]
      rw [ih cs (by simpa using h)]

theorem correlate_content (events : List TimingEvent) (s : List Char) :
    (correlate events s).map TimingEvent.content
      = correlateSlices s events.length := by
  apply map_content_zipWith
  rw [correlateSlices, sliceLoop_length]

/-- C4: for every transcript (any length, including zero) and every
non-empty timing-event list, concatenating the content slices that
correlate_with_session_log assigns, in order, reproduces the decoded
transcript exactly. -/
theorem c4_concat_exact (events : List TimingEvent) (s : List Char)
    (h : events ≠ []) :
    ((correlate events s).map TimingEvent.content).flatten = s := by
  rw [correlate_content, correlateSlices,
    sliceLoop_join s _ events.length 0 (List.length_pos.mpr h), List.drop_zero]

theorem c4_witness :
    ((correlate [defTE] ("ab".toList)).map TimingEvent.content).flatten
      = "ab".toList :=
  c4_concat_exact [defTE] ("ab".toList) (List.cons_ne_nil _ _)

/-- C3 (amended): the chunk size used by correlate_with_session_log is
max(1, totalLength / N), not totalLength / N.  When the transcript has at
least as many characters as there are events, the first N-1 events receive
exactly totalLength / N characters each; when it is shorter (length L less
than N) the chunk size clamps to one, so the first min(L, N-1) events
receive one character each and the remaining slices before the last are
empty.  In both regimes the last event receives everything from position
(N-1) * max(1, totalLength / N) on. -/
theorem c3_slice_sizes (events : List TimingEvent) (s : List Char)
    (hne : events ≠ []) :
    ((correlate events s).map TimingEvent.content).length = events.length ∧
    (events.length ≤ s.length →
      ∀ i, i < events.length - 1 →
        (((correlate events s).map TimingEvent.content).getD i []).length
          = s.length / events.length) ∧
    (s.length < events.length →
      ∀ i, i < events.length - 1 →
        (((correlate events s).map TimingEvent.content).getD i []).length
          = if i < s.length then 1 else 0) ∧
    ((correlate events s).map TimingEvent.content).getD (events.length - 1) []
      = s.drop ((events.length - 1) * max 1 (s.length / events.length)) := by
  have hn : 0 < events.length := List.length_pos.mpr hne
  rw [correlate_content, correlateSlices]
  refine ⟨by rw [sliceLoop_length], ?_, ?_, ?_⟩
  · intro hL i hi
    have hcs : max 1 (s.length / events.length) = s.length / events.length := by
      have h1 : 1 ≤ s.length / events.length := (Nat.one_le_div_iff hn).mpr hL
      omega
    rw [hcs, sliceLoop_getD s _ events.length 0 i (by omega), if_neg (by omega)]
    rw [List.length_take, List.length_drop]
    have hmul : events.length * (s.length / events.length) ≤ s.length := by
      calc events.length * (s.length / events.length)
          = s.length / events.length * events.length := Nat.mul_comm _ _
        _ ≤ s.length := Nat.div_mul_le_self _ _
    have h1 : (i + 1) * (s.length / events.length)
        ≤ events.length * (s.length / events.length) :=
      Nat.mul_le_mul_right _ (by omega)
    have h3 : (i + 1) * (s.length / events.length)
        = i * (s.length / events.length) + s.length / events.length :=
      Nat.succ_mul _ _
    omega
  · intro hL i hi
    have hdiv : s.length / events.length = 0 := Nat.div_eq_of_lt hL
    have hcs : max 1 (s.length / events.length) = 1 := by omega
    rw [hcs, sliceLoop_getD s _ events.length 0 i (by omega), if_neg (by omega)]
    rw [List.length_take, List.length_drop]
    by_cases hiL : i < s.length
    · rw [if_pos hiL]; omega
    · rw [if_neg hiL]; omega
  · rw [sliceLoop_getD s _ events.length 0 (events.length - 1) (by omega),
      if_pos rfl, Nat.zero_add]

theorem c3_witness :
    (((correlate [defTE, defTE, defTE] ("abcdefg".toList)).map
        TimingEvent.content).getD 0 []).length
      = ("abcdefg".toList).length / 3 ∧
    (((correlate [defTE, defTE, defTE] ['a']).map
        TimingEvent.content).getD 1 []).length
      = if 1 < (['a'] : List Char).length then 1 else 0 :=
  ⟨(c3_slice_sizes [defTE, defTE, defTE] ("abcdefg".toList)
      (List.cons_ne_nil _ _)).2.1 (by decide) 0 (by decide),
   (c3_slice_sizes [defTE, defTE, defTE] ['a']
      (List.cons_ne_nil _ _)).2.2.1 (by decide) 1 (by decide)⟩

/-- C3 counterexample: with transcript "a" (length 1) and 3 events, the
claim as stated predicts a first slice of floor(1/3) = 0 characters, but
the code chunk size is max(1, 0) = 1, so the first event receives one
character. -/
theorem c3_counterexample :
    (((correlate [defTE, defTE, defTE] ['a']).map
        TimingEvent.content).getD 0 []).length ≠ ['a'].length / 3 := by
  decide

theorem parseTimingAux_allBad (start : ℚ) :
    ∀ (lines : List (List Char)) (cum : ℚ),
      (∀ l ∈ lines, (parseLine l).isOk = false) →
      (parseTimingAux start lines cum).1 = [] ∧
      (parseTimingAux start lines cum).2
        = lines.countP (fun l => (parseLine l).isWarn) := by
  intro lines
  induction lines with
  | nil => intro cum h; simp [parseTimingAux]
  | cons l ls ih =>
    intro cum h
    have hl : (parseLine l).isOk = false := h l (List.mem_cons_self l ls)
    have hls : ∀ x ∈ ls, (parseLine x).isOk = false :=
      fun x hx => h x (List.mem_cons_of_mem l hx)
    cases hp : parseLine l with
    | ok d c => rw [hp] at hl; simp [LineParse.isOk] at hl
    | warn =>
      have hr := ih cum hls
      simp [parseTimingAux, hp, List.countP_cons, LineParse.isWarn, hr.1, hr.2]
    | skip =>
      have hr := ih cum hls
      simp [parseTimingAux, hp, List.countP_cons, LineParse.isWarn, hr.1, hr.2]

theorem parseLine_warn_iff (l : List Char) (h : (parseLine l).isOk = false) :
    (parseLine l).isWarn = decide (2 ≤ (splitWs (strip l)).length) := by
  unfold parseLine at *
  by_cases he : (strip l).isEmpty
  · have : strip l = [] := by simpa [List.isEmpty_iff] using he
    rw [this] at *
    simp [LineParse.isWarn, splitWs, splitWsAux]
  · by_cases h2 : 2 ≤ (splitWs (strip l)).length
    · simp only [he, Bool.false_eq_true, if_false, if_pos h2] at *
      cases hf : parsePyFloat ((splitWs (strip l)).getD 0 []) with
      | none => simp [hf, LineParse.isWarn, h2]
      | some d =>
        cases hi : parsePyInt ((splitWs (strip l)).getD 1 []) with
        | none => simp [hf, hi, LineParse.isWarn, h2]
        | some c => rw [hf, hi] at h; simp [LineParse.isOk] at h
    · simp [he, h2, LineParse.isWarn]

/-- C5 (amended): the malformed timing lines that reach the numeric
conversions, namely those with at least two whitespace-separated fields,
are skipped with a recorded warning; malformed lines with fewer than two
fields are skipped silently, without a warning.  Nothing raises (the model
is a total function).  An input of only malformed lines therefore yields
no timing events and a warning count equal to the number of malformed
lines having at least two fields, not to the number of malformed lines. -/
theorem c5_amended (start : ℚ) (lines : List (List Char))
    (h : ∀ l ∈ lines, (parseLine l).isOk = false) :
    (parseScriptTimingFile start lines).1 = [] ∧
    (parseScriptTimingFile start lines).2
      = lines.countP (fun l => decide (2 ≤ (splitWs (strip l)).length)) := by
  have h1 := parseTimingAux_allBad start lines 0 h
  refine ⟨h1.1, ?_⟩
  rw [parseScriptTimingFile, h1.2]
  apply List.countP_congr
  intro l hl
  exact (parseLine_warn_iff l (h l hl)) ▸ Iff.rfl

theorem c5_witness :
    (parseScriptTimingFile 0 ["abc def".toList, "1.0".toList]).1 = [] ∧
    (parseScriptTimingFile 0 ["abc def".toList, "1.0".toList]).2
      = ["abc def".toList, "1.0".toList].countP
          (fun l => decide (2 ≤ (splitWs (strip l)).length)) :=
  c5_amended 0 ["abc def".toList, "1.0".toList] (by with_unfolding_all decide)

/-- C5 counterexample: the line "1.0" is malformed (non-blank, wrong field
count, produces no event), yet the decoder records zero warnings for the
one-line input consisting of it, where the claim demands a warning count
of one. -/
theorem c5_counterexample :
    strip ("1.0".toList) ≠ [] ∧
    (parseLine ("1.0".toList)).isOk = false ∧
    parseScriptTimingFile 0 [("1.0".toList)] = ([], 0) := by
  with_unfolding_all decide

theorem okDelay_ok (d : ℚ) (c : Int) : okDelay (LineParse.ok d c) = d := rfl

theorem parseTimingAux_ok_spec (start : ℚ) :
    ∀ (lines : List (List Char)) (cum : ℚ),
      (∀ l ∈ lines, (parseLine l).isOk = true) →
      (parseTimingAux start lines cum).1.length = lines.length ∧
      ∀ i, i < lines.length →
        ((parseTimingAux start lines cum).1.getD i defTE).cumulativeTime
          = cum + ((lines.take (i + 1)).map
              (fun l => okDelay (parseLine l))).sum ∧
        ((parseTimingAux start lines cum).1.getD i defTE).timestamp
          = start + ((parseTimingAux start lines cum).1.getD i defTE).cumulativeTime := by
  intro lines
  induction lines with
  | nil =>
    intro cum h
    exact ⟨by simp [parseTimingAux], fun i hi => absurd hi (by simp)⟩
  | cons l ls ih =>
    intro cum h
    have hl := h l (List.mem_cons_self l ls)
    cases hp : parseLine l with
    | warn => rw [hp] at hl; simp [LineParse.isOk] at hl
    | skip => rw [hp] at hl; simp [LineParse.isOk] at hl
    | ok d c =>
      have hls : ∀ x ∈ ls, (parseLine x).isOk = true :=
        fun x hx => h x (List.mem_cons_of_mem l hx)
      have IH := ih (cum + d) hls
      refine ⟨by simp [parseTimingAux, hp, IH.1], ?_⟩
      intro i hi
      cases i with
      | zero =>
        simp only [parseTimingAux, hp, List.getD_cons_zero, List.take_succ_cons,
          List.take_zero, List.map_cons, List.map_nil, List.sum_cons,
          List.sum_nil, okDelay_ok]
        exact ⟨by ring, by trivial⟩
      | succ j =>
        have hj : j < ls.length := by simpa using hi
        have IH2 := IH.2 j hj
        simp only [parseTimingAux, hp, List.getD_cons_succ, List.take_succ_cons,
          List.map_cons, List.sum_cons, okDelay_ok]
        exact ⟨by rw [IH2.1]; ring, IH2.2⟩

/-- C7: for well-formed timing lines, the i-th decoded TimingEvent has
cumulativeTime equal to the sum of the first i+1 delays and timestamp
equal to the session start plus that cumulative time (the witness
instantiates the concrete two-line example with start instant
2024-01-01T00:00:00Z, whose epoch second is 1704067200). -/
theorem c7_cumulative_sums (start : ℚ) (lines : List (List Char))
    (hok : ∀ l ∈ lines, (parseLine l).isOk = true)
    (hnn : ∀ l ∈ lines, 0 ≤ okDelay (parseLine l)) :
    (parseScriptTimingFile start lines).1.length = lines.length ∧
    ∀ i, i < lines.length →
      ((parseScriptTimingFile start lines).1.getD i defTE).cumulativeTime
        = ((lines.take (i + 1)).map (fun l => okDelay (parseLine l))).sum ∧
      ((parseScriptTimingFile start lines).1.getD i defTE).timestamp
        = start + ((parseScriptTimingFile start lines).1.getD i defTE).cumulativeTime := by
  have h := parseTimingAux_ok_spec start lines 0 hok
  exact ⟨h.1, fun i hi =>
    ⟨by rw [parseScriptTimingFile, (h.2 i hi).1, zero_add], (h.2 i hi).2⟩⟩

theorem c7_witness :
    ((parseScriptTimingFile 1704067200
        ["1.0 50".toList, "2.0 30".toList]).1.getD 0 defTE).timestamp
      = 1704067201 ∧
    ((parseScriptTimingFile 1704067200
        ["1.0 50".toList, "2.0 30".toList]).1.getD 1 defTE).timestamp
      = 1704067203 := by
  have h := c7_cumulative_sums 1704067200 ["1.0 50".toList, "2.0 30".toList]
    (by with_unfolding_all decide) (by with_unfolding_all decide)
  have h0 := h.2 0 (by decide)
  have h1 := h.2 1 (by decide)
  have hp1 : parseLine ['1', '.', '0', ' ', '5', '0'] = LineParse.ok 1 50 := by
    with_unfolding_all decide
  have hp2 : parseLine ['2', '.', '0', ' ', '3', '0'] = LineParse.ok 2 30 := by
    with_unfolding_all decide
  constructor
  · rw [h0.2, h0.1]; norm_num [hp1, okDelay_ok]
  · rw [h1.2, h1.1]; norm_num [hp1, hp2, okDelay_ok]

theorem parseTimingAux_mono (start : ℚ) :
    ∀ (lines : List (List Char)) (cum : ℚ),
      (∀ l ∈ lines, 0 ≤ okDelay (parseLine l)) →
      List.Chain' (fun a b => a.timestamp ≤ b.timestamp)
          (parseTimingAux start lines cum).1 ∧
      ∀ e ∈ (parseTimingAux start lines cum).1, start + cum ≤ e.timestamp := by
  intro lines
  induction lines with
  | nil => intro cum h; simp [parseTimingAux]
  | cons l ls ih =>
    intro cum h
    have hl := h l (List.mem_cons_self l ls)
    have hls : ∀ x ∈ ls, 0 ≤ okDelay (parseLine x) :=
      fun x hx => h x (List.mem_cons_of_mem l hx)
    cases hp : parseLine l with
    | warn => simpa [parseTimingAux, hp] using ih cum hls
    | skip => simpa [parseTimingAux, hp] using ih cum hls
    | ok d c =>
      rw [hp] at hl
      have hd : 0 ≤ d := by simpa [okDelay] using hl
      have IH := ih (cum + d) hls
      constructor
      · simp only [parseTimingAux, hp]
        rw [List.chain'_cons']
        refine ⟨fun y hy => ?_, IH.1⟩
        exact IH.2 y (List.mem_of_mem_head? hy)
      · intro e he
        simp only [parseTimingAux, hp, List.mem_cons] at he
        rcases he with he | he
        · subst he; simp; linarith
        · have := IH.2 e he; linarith

/-- C9 (amended): when every accepted timing line has a non-negative
delay, the timestamps of the decoded TimingEvent sequence are
monotonically non-decreasing in sequence order.  (The decoder itself also
accepts negative delays, under which the property fails, as the
counterexample exhibits.) -/
theorem c9_amended (start : ℚ) (lines : List (List Char))
    (hnn : ∀ l ∈ lines, 0 ≤ okDelay (parseLine l)) :
    List.Chain' (fun a b => a.timestamp ≤ b.timestamp)
      (parseScriptTimingFile start lines).1 :=
  (parseTimingAux_mono start lines 0 hnn).1

theorem c9_witness :
    List.Chain' (fun a b => a.timestamp ≤ b.timestamp)
      (parseScriptTimingFile 0 ["1.0 50".toList, "2.0 30".toList]).1 :=
  c9_amended 0 ["1.0 50".toList, "2.0 30".toList] (by with_unfolding_all decide)

/-- C9 counterexample: the decoder accepts the line "-1.0 10" (Python
float accepts a negative delay), and after "1.0 10" the resulting
timestamps are start+1 followed by start+0: strictly decreasing. -/
theorem c9_counterexample :
    (parseLine ("1.0 10".toList)).isOk = true ∧
    (parseLine ("-1.0 10".toList)).isOk = true ∧
    ¬ List.Chain' (fun a b => a.timestamp ≤ b.timestamp)
        (parseScriptTimingFile 0 [("1.0 10".toList), ("-1.0 10".toList)]).1 := by
  refine ⟨by with_unfolding_all decide, by with_unfolding_all decide, ?_⟩
  intro hch
  have hmap : ((parseScriptTimingFile 0
      [("1.0 10".toList), ("-1.0 10".toList)]).1.map
        (fun e => e.timestamp)) = [1, 0] := by
    with_unfolding_all decide
  have h2 : List.Chain' (fun a b : ℚ => a ≤ b) [1, 0] := by
    have h3 := (List.chain'_map (fun e : TimingEvent => e.timestamp)).mpr hch
    rwa [hmap] at h3
  rw [List.chain'_cons] at h2
  exact absurd h2.1 (by norm_num)

/-- C6 (amended): a response slice containing exactly five occurrences of
the cross-mark error indicator (weight -0.2) and no occurrence of any
other indicator scores exactly 0.1, the clamp floor.  This does not hold
for each error indicator: the error and failed indicators carry weight
-0.1, so five occurrences yield 0.75 - 0.5 = 0.25, which the clamp leaves
unchanged, as the counterexample exhibits. -/
theorem c6_amended (content : List Char)
    (h1 : countOccur ("❌".toList) (content.map Char.toLower) = 5)
    (h2 : countOccur ("✅".toList) (content.map Char.toLower) = 0)
    (h3 : countOccur ("successfully".toList) (content.map Char.toLower) = 0)
    (h4 : countOccur ("completed".toList) (content.map Char.toLower) = 0)
    (h5 : countOccur ("error".toList) (content.map Char.toLower) = 0)
    (h6 : countOccur ("failed".toList) (content.map Char.toLower) = 0) :
    assessResponseQuality content EventType.claudeResponse = some (1/10) := by
  unfold assessResponseQuality qualityIndicators
  rw [if_pos rfl]
  simp only [List.foldl_cons, List.foldl_nil]
  rw [h1, h2, h3, h4, h5, h6]
  norm_num [min_def, max_def]

theorem c6_witness :
    assessResponseQuality ("❌❌❌❌❌".toList) EventType.claudeResponse
      = some (1/10) :=
  c6_amended ("❌❌❌❌❌".toList) (by decide) (by decide) (by decide)
    (by decide) (by decide) (by decide)

/-- C6 counterexample: the slice of five occurrences of the error
indicator (and no other indicator) scores 0.25, not the floor 0.1, because
that indicator weighs -0.1; the claim fails for this member of the
indicator table. -/
theorem c6_counterexample :
    countOccur ("error".toList)
        (("error error error error error".toList).map Char.toLower) = 5 ∧
    countOccur ("✅".toList)
        (("error error error error error".toList).map Char.toLower) = 0 ∧
    countOccur ("successfully".toList)
        (("error error error error error".toList).map Char.toLower) = 0 ∧
    countOccur ("completed".toList)
        (("error error error error error".toList).map Char.toLower) = 0 ∧
    countOccur ("❌".toList)
        (("error error error error error".toList).map Char.toLower) = 0 ∧
    countOccur ("failed".toList)
        (("error error error error error".toList).map Char.toLower) = 0 ∧
    assessResponseQuality ("error error error error error".toList)
        EventType.claudeResponse = some (1/4) ∧
    assessResponseQuality ("error error error error error".toList)
        EventType.claudeResponse ≠ some (1/10) := by
  with_unfolding_all decide

/-- C8: the quality score of an assembled ConversationMessage (and of the
underlying assess_response_quality call on any content and kind) is None
exactly when the kind is not an assistant response, and whenever it is
defined it lies in the closed interval from 0.1 to 1.0. -/
theorem c8_quality_defined_iff_response (content : List Char) (t : EventType)
    (sid : List Char) (ev : ConversationEvent) :
    ((assessResponseQuality content t = none ↔ t ≠ EventType.claudeResponse) ∧
     ∀ q, assessResponseQuality content t = some q → 1/10 ≤ q ∧ q ≤ 1) ∧
    (((assembleMessage sid ev).responseQuality = none
        ↔ ev.etype ≠ EventType.claudeResponse) ∧
     ∀ q, (assembleMessage sid ev).responseQuality = some q →
        1/10 ≤ q ∧ q ≤ 1) := by
  have main : ∀ (c : List Char) (u : EventType),
      (assessResponseQuality c u = none ↔ u ≠ EventType.claudeResponse) ∧
      ∀ q, assessResponseQuality c u = some q → 1/10 ≤ q ∧ q ≤ 1 := by
    intro c u
    by_cases hu : u = EventType.claudeResponse
    · subst hu
      refine ⟨by simp [assessResponseQuality], ?_⟩
      intro q hq
      unfold assessResponseQuality at hq
      rw [if_pos rfl] at hq
      injection hq with hq2
      subst hq2
      exact ⟨le_max_left _ _, max_le (by norm_num) (min_le_left _ _)⟩
    · refine ⟨by simp [assessResponseQuality, hu], ?_⟩
      intro q hq
      simp [assessResponseQuality, hu] at hq
  have hassemble : (assembleMessage sid ev).responseQuality
      = assessResponseQuality ev.content ev.etype := rfl
  exact ⟨main content t, by rw [hassemble]; exact main ev.content ev.etype⟩

theorem c8_witness : (1 : ℚ)/10 ≤ 3/4 ∧ (3 : ℚ)/4 ≤ 1 :=
  (c8_quality_defined_iff_response [] EventType.claudeResponse []
      ⟨0, EventType.claudeResponse, [], [], none, none, 0⟩).2.2 (3/4)
    (by with_unfolding_all decide)

theorem dropWhile_head_not (p : Char → Bool) :
    ∀ (l : List Char) (c : Char) (cs : List Char),
      l.dropWhile p = c :: cs → p c = false := by
  intro l
  induction l with
  | nil => intro c cs h; simp [List.dropWhile] at h
  | cons x xs ih =>
    intro c cs h
    simp only [List.dropWhile_cons] at h
    by_cases hp : p x = true
    · rw [if_pos hp] at h; exact ih c cs h
    · rw [if_neg hp] at h
      injection h with h1 h2
      subst h1
      simpa using hp

theorem mem_takeWhile_sat (p : Char → Bool) :
    ∀ (l : List Char) (c : Char), c ∈ l.takeWhile p → p c = true := by
  intro l
  induction l with
  | nil => intro c h; simp [List.takeWhile] at h
  | cons x xs ih =>
    intro c h
    simp only [List.takeWhile_cons] at h
    by_cases hp : p x = true
    · rw [if_pos hp] at h
      rcases List.mem_cons.mp h with h1 | h1
      · subst h1; exact hp
      · exact ih c h1
    · rw [if_neg hp] at h; simp at h

theorem strip_append (l : List Char) :
    l.dropWhile pyIsSpace
      = strip l ++ ((l.dropWhile pyIsSpace).reverse.takeWhile pyIsSpace).reverse := by
  rw [strip]
  conv_lhs => rw [← List.reverse_reverse (l.dropWhile pyIsSpace),
    ← List.takeWhile_append_dropWhile (p := pyIsSpace)
      (l := (l.dropWhile pyIsSpace).reverse)]
  rw [List.reverse_append]

theorem strip_head_not_space (l : List Char) (c : Char) (cs : List Char)
    (h : strip l = c :: cs) : pyIsSpace c = false := by
  have h2 := strip_append l
  rw [h] at h2
  exact dropWhile_head_not pyIsSpace l c _ (by simpa using h2)

theorem strip_eq_nil_all_space (l : List Char) (h : strip l = []) :
    ∀ c ∈ l, pyIsSpace c = true := by
  intro c hc
  rw [strip] at h
  have h1 : (l.dropWhile pyIsSpace).reverse.dropWhile pyIsSpace = [] := by
    simpa using congrArg List.reverse h
  have h2 := List.dropWhile_eq_nil_iff.mp h1
  have h3 : ∀ x ∈ l.dropWhile pyIsSpace, pyIsSpace x = true :=
    fun x hx => h2 x (List.mem_reverse.mpr hx)
  have hsplit : c ∈ l.takeWhile pyIsSpace ++ l.dropWhile pyIsSpace := by
    rw [List.takeWhile_append_dropWhile]; exact hc
  rcases List.mem_append.mp hsplit with h4 | h4
  · exact mem_takeWhile_sat pyIsSpace l c h4
  · exact h3 c h4

theorem splitNl_ne_nil : ∀ s : List Char, splitNl s ≠ [] := by
  intro s
  cases s with
  | nil => simp [splitNl]
  | cons c rest =>
    by_cases h : c = '\n'
    · simp [splitNl, h]
    · simp only [splitNl, if_neg h]
      cases hr : splitNl rest with
      | nil => simp
      | cons l ls => simp

theorem mem_splitNl : ∀ (s : List Char) (c : Char), c ∈ s →
    c = '\n' ∨ ∃ l ∈ splitNl s, c ∈ l := by
  intro s
  induction s with
  | nil => intro c h; simp at h
  | cons x xs ih =>
    intro c hc
    rcases List.mem_cons.mp hc with h1 | h1
    · subst h1
      by_cases hx : c = '\n'
      · exact Or.inl hx
      · right
        simp only [splitNl, if_neg hx]
        cases hr : splitNl xs with
        | nil => exact absurd hr (splitNl_ne_nil xs)
        | cons l ls =>
          exact ⟨c :: l, List.mem_cons_self _ _, List.mem_cons_self _ _⟩
    · rcases ih c h1 with h2 | ⟨l, hl, hcl⟩
      · exact Or.inl h2
      · right
        by_cases hx : x = '\n'
        · simp only [splitNl, if_pos hx]
          exact ⟨l, List.mem_cons_of_mem _ hl, hcl⟩
        · simp only [splitNl, if_neg hx]
          cases hr : splitNl xs with
          | nil => exact absurd hr (splitNl_ne_nil xs)
          | cons l0 ls =>
            rw [hr] at hl
            rcases List.mem_cons.mp hl with h3 | h3
            · subst h3
              exact ⟨x :: l, List.mem_cons_self _ _, List.mem_cons_of_mem _ hcl⟩
            · exact ⟨l, List.mem_cons_of_mem _ h3, hcl⟩

theorem exists_nonblank_line (raw : List Char) (h : strip raw ≠ []) :
    (splitNl (strip raw)).any (fun l => !(strip l).isEmpty) = true := by
  obtain ⟨c, cs, hs⟩ : ∃ c cs, strip raw = c :: cs := by
    rcases h2 : strip raw with _ | ⟨c, cs⟩
    · exact absurd h2 h
    · exact ⟨c, cs, rfl⟩
  have hc : pyIsSpace c = false := strip_head_not_space raw c cs hs
  have hcmem : c ∈ strip raw := by rw [hs]; exact List.mem_cons_self _ _
  rcases mem_splitNl (strip raw) c hcmem with h1 | ⟨l, hl, hcl⟩
  · rw [h1] at hc; simp [pyIsSpace] at hc
  · rw [List.any_eq_true]
    refine ⟨l, hl, ?_⟩
    have hlne : strip l ≠ [] := by
      intro hnil
      have hcs := strip_eq_nil_all_space l hnil c hcl
      rw [hcs] at hc
      exact Bool.noConfusion hc
    simpa [List.isEmpty_iff] using hlne

/-- C2 (amended): the fallback heuristic of is_user_input counts the total
newline-split pieces of the slice, empty pieces included, not the
non-empty lines.  For every timing event whose trimmed content is
non-empty, splits into at most 3 pieces on newlines, and matches no
assistant-response marker, the classifier emits a UserInput event.  (A
slice with at most 3 non-empty lines but more than 2 newline characters
is not classified UserInput, as the counterexample exhibits.) -/
theorem c2_fallback_user_input (e : TimingEvent)
    (hne : strip e.content ≠ [])
    (hlines : (splitNl (strip e.content)).length ≤ 3)
    (hcl : isClaudeResponse (strip e.content) = false) :
    (detectEvent e).map ConversationEvent.etype = some EventType.userInput := by
  have hui : isUserInput (strip e.content) = true := by
    simp [isUserInput, decide_eq_true hlines,
      exists_nonblank_line e.content hne, hcl]
  have hfalse : (strip e.content).isEmpty = false := by
    simpa [List.isEmpty_iff] using hne
  simp [detectEvent, hfalse, hui]

theorem c2_witness :
    (detectEvent ⟨0, "hello".toList, 0, 0⟩).map ConversationEvent.etype
      = some EventType.userInput :=
  c2_fallback_user_input ⟨0, "hello".toList, 0, 0⟩ (by decide) (by decide)
    (by decide)

/-- C2 counterexample: the slice of two non-empty lines separated by three
newlines satisfies every hypothesis of the claim (non-empty when trimmed,
two non-empty lines, no assistant-response marker, no prompt marker), yet
the classifier drops it entirely: the fallback counts four newline-split
pieces, which exceeds 3. -/
theorem c2_counterexample :
    strip ("a\n\n\nb".toList) = "a\n\n\nb".toList ∧
    ("a\n\n\nb".toList) ≠ [] ∧
    (splitNl ("a\n\n\nb".toList)).countP (fun l => !(strip l).isEmpty) = 2 ∧
    isClaudeResponse ("a\n\n\nb".toList) = false ∧
    detectEvent ⟨0, "a\n\n\nb".toList, 0, 0⟩ = none := by
  with_unfolding_all decide

theorem toolMatchAt_bullet (s : List Char) (r : List Char × List Char)
    (h : toolMatchAt s = some r) : containsSub ['●'] s = true := by
  cases s with
  | nil => simp [toolMatchAt] at h
  | cons c1 rest1 =>
    cases rest1 with
    | nil => simp [toolMatchAt] at h
    | cons c2 rest2 =>
      by_cases hb : ((c1 == '●') && (c2 == ' ')) = true
      · have hc1 : c1 = '●' := by
          have h2 := (Bool.and_eq_true _ _).mp hb
          exact eq_of_beq h2.1
        simp [containsSub, isPrefixB, hc1]
      · simp only [toolMatchAt] at h
        rw [if_neg hb] at h
        exact Option.noConfusion h

theorem noBullet_toolFullSearch :
    ∀ s : List Char, containsSub ['●'] s = false → toolFullSearch s = none := by
  intro s
  induction s with
  | nil => intro h; simp [toolFullSearch]
  | cons c rest ih =>
    intro h
    have h2 : containsSub ['●'] rest = false := by
      simp only [containsSub] at h
      exact (Bool.or_eq_false_iff.mp h).2
    have h1 : toolMatchAt (c :: rest) = none := by
      cases hm : toolMatchAt (c :: rest) with
      | none => rfl
      | some r =>
        have hbul := toolMatchAt_bullet _ r hm
        rw [h] at hbul
        exact Bool.noConfusion hbul
    simp [toolFullSearch, h1, Option.orElse, ih h2]

/-- C10: whenever the classifier emits a ToolUsage event, the slice
matched no assistant-response marker (in particular it contains no bullet
glyph, because the bullet is itself a response marker checked earlier), so
the bullet-based extraction regex of extract_tool_info cannot match:
every ToolUsage event carries toolName unknown and empty toolArgs. -/
theorem c10_tool_usage_defaults (e : TimingEvent) (ev : ConversationEvent)
    (hdet : detectEvent e = some ev)
    (htool : ev.etype = EventType.toolUsage) :
    ev.toolName = some ("unknown".toList) ∧ ev.toolArgs = some [] ∧
    isClaudeResponse (strip e.content) = false ∧
    containsSub ['●'] (strip e.content) = false := by
  unfold detectEvent at hdet
  by_cases h0 : (strip e.content).isEmpty
  · rw [if_pos h0] at hdet; exact Option.noConfusion hdet
  · rw [if_neg h0] at hdet
    by_cases h1 : isUserInput (strip e.content)
    · rw [if_pos h1] at hdet
      injection hdet with hinj
      subst hinj
      simp at htool
    · rw [if_neg h1] at hdet
      by_cases h2 : isClaudeResponse (strip e.content)
      · rw [if_pos h2] at hdet
        injection hdet with hinj
        subst hinj
        simp at htool
      · rw [if_neg h2] at hdet
        have h2f : isClaudeResponse (strip e.content) = false := by
          simpa using h2
        have hb : containsSub ['●'] (strip e.content) = false := by
          have h3 := h2f
          simp only [isClaudeResponse, claudeResponsePatterns, List.any_cons,
            List.any_nil, Bool.or_eq_false_iff] at h3
          exact h3.1
        by_cases h3 : isToolUsage (strip e.content)
        · rw [if_pos h3] at hdet
          injection hdet with hinj
          subst hinj
          have hfs : toolFullSearch (strip e.content) = none :=
            noBullet_toolFullSearch _ hb
          exact ⟨by simp [hfs], by simp [hfs], h2f, hb⟩
        · rw [if_neg h3] at hdet; exact Option.noConfusion hdet

set_option maxRecDepth 2000 in
theorem c10_witness :
    (⟨0, EventType.toolUsage, "⎿ x a b c".toList, "⎿ x\na\nb\nc".toList,
        some ("unknown".toList), some [], 0⟩ : ConversationEvent).toolName
      = some ("unknown".toList) ∧
    (⟨0, EventType.toolUsage, "⎿ x a b c".toList, "⎿ x\na\nb\nc".toList,
        some ("unknown".toList), some [], 0⟩ : ConversationEvent).toolArgs
      = some [] ∧
    isClaudeResponse (strip ("⎿ x\na\nb\nc".toList)) = false ∧
    containsSub ['●'] (strip ("⎿ x\na\nb\nc".toList)) = false := by
  have h6 : strip ['⎿', ' ', 'x', '\n', 'a', '\n', 'b', '\n', 'c']
      = ['⎿', ' ', 'x', '\n', 'a', '\n', 'b', '\n', 'c'] := by decide
  have h0 : (['⎿', ' ', 'x', '\n', 'a', '\n', 'b', '\n', 'c'] :
      List Char).isEmpty = false := by decide
  have h1 : isUserInput ['⎿', ' ', 'x', '\n', 'a', '\n', 'b', '\n', 'c']
      = false := by decide
  have h2 : isClaudeResponse ['⎿', ' ', 'x', '\n', 'a', '\n', 'b', '\n', 'c']
      = false := by decide
  have h3 : isToolUsage ['⎿', ' ', 'x', '\n', 'a', '\n', 'b', '\n', 'c']
      = true := by decide
  have h4 : toolFullSearch ['⎿', ' ', 'x', '\n', 'a', '\n', 'b', '\n', 'c']
      = none := by decide
  have h5 : cleanContent ['⎿', ' ', 'x', '\n', 'a', '\n', 'b', '\n', 'c']
      = ['⎿', ' ', 'x', ' ', 'a', ' ', 'b', ' ', 'c'] := by decide
  have hdet : detectEvent ⟨0, "⎿ x\na\nb\nc".toList, 0, 0⟩ =
      some ⟨0, EventType.toolUsage, "⎿ x a b c".toList, "⎿ x\na\nb\nc".toList,
        some ("unknown".toList), some [], 0⟩ := by
    simp [detectEvent, h6, h0, h1, h2, h3, h4, h5]
  exact c10_tool_usage_defaults ⟨0, "⎿ x\na\nb\nc".toList, 0, 0⟩
    ⟨0, EventType.toolUsage, "⎿ x a b c".toList, "⎿ x\na\nb\nc".toList,
        some ("unknown".toList), some [], 0⟩ hdet (by decide)

/-- C1 counterexample: the classifier does not assign kind ToolUsage to
the slice with bullet, Read and parenthesized argument: the bullet glyph
is an assistant-response marker and that branch is tested first. -/
theorem c1_counterexample :
    ¬ ((detectEvent ⟨0, "● Read(config.yaml)".toList, 0, 0⟩).map
        ConversationEvent.etype = some EventType.toolUsage) := by
  with_unfolding_all decide

/-- C1 (amended): the content slice of a bullet followed by Read and a
parenthesized file name yields a ConversationEvent of kind
AssistantResponse with no tool name and no tool arguments: the
assistant-response branch precedes the tool-usage branch, so the
tool-extraction path never fires on this slice. -/
theorem c1_bullet_read_is_response :
    (detectEvent ⟨0, "● Read(config.yaml)".toList, 0, 0⟩).map
        (fun ev => (ev.etype, ev.toolName, ev.toolArgs))
      = some (EventType.claudeResponse, none, none) := by
  with_unfolding_all decide
